import Mathlib

/-!  Shallow embedding of dm_int_tools (src/main.c): a utility that checks,
repairs or formats a block device in large chunks with a per-sector
fallback, reports throttled progress, and dumps the dm-integrity
superblock.  System calls are modelled by an environment `Dev` that fixes
the outcome of every seek/read/write per byte offset and length; the
engine produces a trace of events (I/O operations and printf reports).
Buffer contents and the random/zero fill policy are not modelled: no
verified property depends on the bytes written.  -/

/-- SECTOR_SIZE from main.c (512). -/
def SECTOR_SIZE : Nat := 512

/-- The Linux errno value EIO, one of the two expected-media-error codes
of main.c line 193. -/
def eioNum : Nat := 5

/-- The Linux errno value EILSEQ, the other expected-media-error code of
main.c line 193. -/
def eilseqNum : Nat := 84

/-- The dev_command enum of main.c line 58. -/
inductive DevCommand
| DEV_CHECK
| DEV_FIX
| DEV_FORMAT
deriving DecidableEq

/-- Open mode of the device file descriptor. -/
inductive Mode
| readOnly
| readWrite
deriving DecidableEq

/-- Lines 233-236 of main.c: O_RDONLY for DEV_CHECK, O_RDWR otherwise. -/
def openMode (dc : DevCommand) : Mode :=
  if dc = DevCommand.DEV_CHECK then Mode.readOnly else Mode.readWrite

/-- The printf reports emitted by rw_sectors and check_one_by_one. -/
inductive Msg
| seekErr (sector errno : Nat)
| unexpectedErr (sector errno : Nat)
| ioErr (sector : Nat)
| wipeFailed (sector errno : Nat)
| wiped (sector : Nat)
| writeChunkErr (sector : Nat)
| fsyncErr (errno : Nat)
deriving DecidableEq

/-- Observable events of one engine run: the open of the device, each
read(2)/write(2) with its byte offset and length, fsync, close, each
print_progress invocation (with its two byte arguments and final flag)
and each printf report. -/
inductive Ev
| openDev (m : Mode)
| read (off len : Nat)
| write (off len : Nat)
| fsync
| close
| progress (deviceBytes bytes : Nat) (final : Bool)
| print (m : Msg)
deriving DecidableEq

/-- The environment: outcome of each system call, deterministic per byte
offset and length. -/
structure Dev where
  mallocOk : Bool
  openOk : Bool
  seekOk : Nat → Bool
  seekErrno : Nat → Nat
  readFull : Nat → Nat → Bool
  readErrno : Nat → Nat → Nat
  writeFull : Nat → Nat → Bool
  writeErrno : Nat → Nat → Nat
  fsyncOk : Bool
  fsyncErrno : Nat

/-- The per-sector fallback loop of check_one_by_one (main.c lines
182-216).  First Nat argument: sectors still to visit; second: current
sector index.  A failed seek (line 184) or a read failing with an errno
other than EIO/EILSEQ (line 193) prints a report and returns, ending the
walk.  An expected media error is reported (Check) or repaired by a
single-sector write (Fix). -/
def checkLoop (dev : Dev) (dc : DevCommand) : Nat → Nat → List Ev
| 0, _ => []
| k+1, sector =>
  if dev.seekOk (sector * SECTOR_SIZE) = false then
    [Ev.print (Msg.seekErr sector (dev.seekErrno (sector * SECTOR_SIZE)))]
  else
    Ev.read (sector * SECTOR_SIZE) SECTOR_SIZE ::
    (if dev.readFull (sector * SECTOR_SIZE) SECTOR_SIZE then
       checkLoop dev dc k (sector+1)
     else if dev.readErrno (sector * SECTOR_SIZE) SECTOR_SIZE ≠ eioNum ∧
             dev.readErrno (sector * SECTOR_SIZE) SECTOR_SIZE ≠ eilseqNum then
       [Ev.print (Msg.unexpectedErr sector
          (dev.readErrno (sector * SECTOR_SIZE) SECTOR_SIZE))]
     else if dc ≠ DevCommand.DEV_FIX then
       Ev.print (Msg.ioErr sector) :: checkLoop dev dc k (sector+1)
     else if dev.seekOk (sector * SECTOR_SIZE) = false then
       Ev.print (Msg.seekErr sector (dev.seekErrno (sector * SECTOR_SIZE))) ::
         checkLoop dev dc k (sector+1)
     else
       Ev.write (sector * SECTOR_SIZE) SECTOR_SIZE ::
       (if dev.writeFull (sector * SECTOR_SIZE) SECTOR_SIZE then
          Ev.print (Msg.wiped sector)
        else
          Ev.print (Msg.wipeFailed sector
            (dev.writeErrno (sector * SECTOR_SIZE) SECTOR_SIZE))) ::
       checkLoop dev dc k (sector+1))

/-- check_one_by_one, main.c lines 174-218 (argument order of the
source: block_size_sec then offset_sec). -/
def check_one_by_one (dev : Dev) (block_size_sec offset_sec : Nat)
    (dc : DevCommand) : List Ev :=
  checkLoop dev dc block_size_sec offset_sec

/-- The main chunk loop of rw_sectors, main.c lines 244-273, indexed by
fuel; `none` only on fuel exhaustion, which cannot happen when the fuel
exceeds dev_size_sec - offset_sec and block_sectors > 0.  Result on
`some`: the events of the loop, whether it aborted on a fatal seek error
(line 250), and the final value of offset_sec. -/
def rwLoopF (dev : Dev) (block_sectors : Nat) (dc : DevCommand) :
    Nat → Nat → Nat → Option (List Ev × Bool × Nat)
| 0, _, _ => none
| fuel+1, offset_sec, dev_size_sec =>
  if offset_sec < dev_size_sec then
    let block_size_sec :=
      if offset_sec + block_sectors > dev_size_sec then dev_size_sec - offset_sec
      else block_sectors
    if dev.seekOk (offset_sec * SECTOR_SIZE) = false then
      some ([Ev.print (Msg.seekErr offset_sec
              (dev.seekErrno (offset_sec * SECTOR_SIZE)))], true, offset_sec)
    else
      let body : List Ev :=
        if dc = DevCommand.DEV_FORMAT then
          Ev.write (offset_sec * SECTOR_SIZE) (SECTOR_SIZE * block_size_sec) ::
          (if dev.writeFull (offset_sec * SECTOR_SIZE) (SECTOR_SIZE * block_size_sec) then []
           else [Ev.print (Msg.writeChunkErr offset_sec)])
        else
          Ev.read (offset_sec * SECTOR_SIZE) (SECTOR_SIZE * block_size_sec) ::
          (if dev.readFull (offset_sec * SECTOR_SIZE) (SECTOR_SIZE * block_size_sec) then []
           else check_one_by_one dev block_size_sec offset_sec dc)
      match rwLoopF dev block_sectors dc fuel (offset_sec + block_size_sec) dev_size_sec with
      | none => none
      | some (evs, ab, endOff) =>
        some (body ++ Ev.progress (dev_size_sec * SECTOR_SIZE)
                ((offset_sec + block_size_sec) * SECTOR_SIZE) false :: evs,
              ab, endOff)
  else
    some ([], false, offset_sec)

/-- rw_sectors, main.c lines 220-284: aligned_malloc, open, the chunk
loop, fsync, close, final progress call.  Exit code 0 on success, 1
(EXIT_FAILURE) on malloc failure, open failure or a fatal seek error in
the loop.  On the fatal path the handle is closed before returning. -/
def rw_sectors (dev : Dev) (block_sectors : Nat) (offset_sec dev_size_sec : Nat)
    (dc : DevCommand) : Option (List Ev × Nat) :=
  if dev.mallocOk = false then some ([], 1)
  else if dev.openOk = false then some ([], 1)
  else
    match rwLoopF dev block_sectors dc (dev_size_sec - offset_sec + 1)
            offset_sec dev_size_sec with
    | none => none
    | some (evs, true, _) =>
      some (Ev.openDev (openMode dc) :: evs ++ [Ev.close], 1)
    | some (evs, false, endOff) =>
      some (Ev.openDev (openMode dc) :: evs ++
              Ev.fsync ::
              (if dev.fsyncOk then [] else [Ev.print (Msg.fsyncErr dev.fsyncErrno)]) ++
              [Ev.close,
               Ev.progress (dev_size_sec * SECTOR_SIZE) (endOff * SECTOR_SIZE) true], 0)

/-- Just the chunk-size arithmetic of the loop, main.c lines 244-248 and
271, fuel-indexed like rwLoopF. -/
def chunkSizesF (block_sectors : Nat) : Nat → Nat → Nat → Option (List Nat)
| 0, _, _ => none
| fuel+1, offset_sec, dev_size_sec =>
  if offset_sec < dev_size_sec then
    let block_size_sec :=
      if offset_sec + block_sectors > dev_size_sec then dev_size_sec - offset_sec
      else block_sectors
    (chunkSizesF block_sectors fuel (offset_sec + block_size_sec) dev_size_sec).map
      (fun cs => block_size_sec :: cs)
  else some []

/-- The sequence of chunk sizes the loop processes from a start offset. -/
def chunkSizes (block_sectors offset_sec dev_size_sec : Nat) : Option (List Nat) :=
  chunkSizesF block_sectors (dev_size_sec - offset_sec + 1) offset_sec dev_size_sec

/-- Expected (byte offset, byte length) pairs of the bulk reads for a
chunk decomposition starting at a sector offset. -/
def chunkReadList (offset_sec : Nat) : List Nat → List (Nat × Nat)
| [] => []
| c :: cs =>
  (offset_sec * SECTOR_SIZE, SECTOR_SIZE * c) :: chunkReadList (offset_sec + c) cs

/-- The write(2) calls of a trace, as (byte offset, byte length). -/
def writeEvents : List Ev → List (Nat × Nat)
| [] => []
| Ev.write o k :: es => (o, k) :: writeEvents es
| _ :: es => writeEvents es

/-- The read(2) calls of a trace, as (byte offset, byte length). -/
def readEvents : List Ev → List (Nat × Nat)
| [] => []
| Ev.read o k :: es => (o, k) :: readEvents es
| _ :: es => readEvents es

/-- Recognizes the final print_progress invocation in a trace. -/
def isFinalProgress : Ev → Bool
| Ev.progress _ _ true => true
| _ => false

/-- struct timeval: seconds and microseconds. -/
structure Timeval where
  sec : Int
  usec : Int
deriving DecidableEq

/-- The all-zero timeval that marks print_progress's start_time as unset. -/
def tvZero : Timeval := ⟨0, 0⟩

/-- A timeval as an exact number of seconds. -/
def toQ (t : Timeval) : ℚ := (t.sec : ℚ) + (t.usec : ℚ) / 1000000

/-- time_diff, main.c lines 116-120 (exact rational arithmetic in place
of C doubles). -/
def time_diff (start finish : Timeval) : ℚ :=
  ((finish.sec - start.sec : Int) : ℚ) + ((finish.usec - start.usec : Int) : ℚ) / 1000000

/-- The static locals of print_progress: start_time and end_time. -/
structure ProgState where
  start : Timeval
  endT : Timeval
deriving DecidableEq

/-- The initial (zeroed) static state, main.c line 130. -/
def initProgState : ProgState := ⟨tvZero, tvZero⟩

/-- A progress line: either the permanent final summary or an in-place
progress line. -/
inductive PReport
| finished (tdiff : ℚ) (mbytes : Nat) (mib : ℚ)
| progressLine (percent eta : ℚ) (mbytes : Nat) (mib : ℚ)
deriving DecidableEq

/-- The throughput field of a report. -/
def mibOf : PReport → ℚ
| PReport.finished _ _ m => m
| PReport.progressLine _ _ _ m => m

/-- print_progress, main.c lines 128-172; `now` is what gettimeofday
returned.  Returns the new static state and the emitted report, if any:
nothing on the very first call (start_time unset), on a throttled
non-final call (< 0.5 s since end_time), on zero elapsed time, or on a
cumulative MiB count of zero (which guards the ETA division). -/
def print_progress (st : ProgState) (now : Timeval) (device_size bytes : Nat)
    (final : Bool) : ProgState × Option PReport :=
  if st.start = tvZero then ({ start := now, endT := now }, none)
  else if final = false ∧ time_diff st.endT now < 1/2 then (st, none)
  else
    let st' : ProgState := { st with endT := now }
    let tdiff := time_diff st.start now
    if tdiff = 0 then (st', none)
    else
      let mbytes := bytes / 1024 / 1024
      let mib : ℚ := (mbytes : ℚ) / tdiff
      if mib = 0 then (st', none)
      else
        let eta : ℚ := ((device_size / 1024 / 1024 : Nat) : ℚ) / mib - tdiff
        if final then (st', some (PReport.finished tdiff mbytes mib))
        else (st', some (PReport.progressLine
               ((bytes : ℚ) / (device_size : ℚ) * 100) eta mbytes mib))

/-- One print_progress invocation: clock sample and the three arguments. -/
structure PCall where
  now : Timeval
  device_size : Nat
  bytes : Nat
  final : Bool
deriving DecidableEq

/-- A sequence of print_progress invocations threaded through the static
state, each paired with its output. -/
def runProgress : ProgState → List PCall → List (PCall × Option PReport)
| _, [] => []
| st, c :: cs =>
  (c, (print_progress st c.now c.device_size c.bytes c.final).2) ::
    runProgress (print_progress st c.now c.device_size c.bytes c.final).1 cs

/-- Interpret the progress events of an engine trace against a list of
clock samples, one sample per print_progress call. -/
def progressReports : ProgState → List Timeval → List Ev → List (Option PReport)
| _, _, [] => []
| st, times, e :: es =>
  match e with
  | Ev.progress ds b f =>
    match times with
    | [] => []
    | t :: ts =>
      let r := print_progress st t ds b f
      r.2 :: progressReports r.1 ts es
  | _ => progressReports st times es

/-- The 8 bytes of SB_MAGIC "integrt" with its trailing NUL. -/
def SB_MAGIC_BYTES : List Nat := [105, 110, 116, 101, 103, 114, 116, 0]

/-- SB_VERSION, main.c line 46. -/
def SB_VERSION : Nat := 1

/-- Little-endian value of a byte list. -/
def leVal (bs : List Nat) : Nat := bs.foldr (fun b acc => b + 256 * acc) 0

/-- Two's-complement value of one byte read as int8_t. -/
def int8 (b : Nat) : Int := if b < 128 then (b : Int) else (b : Int) - 256

/-- The parsed superblock, main.c lines 48-55, after the leXXtoh
conversions of lines 303-305. -/
structure Superblock where
  magic : List Nat
  version : Nat
  log2_interleave_sectors : Int
  integrity_tag_size : Nat
  journal_sections : Nat
  provided_data_sectors : Nat
deriving DecidableEq

/-- Output lines of the dump path. -/
inductive DumpLine
| noHeader
| info
| fLog2 (v : Int)
| fTag (v : Nat)
| fJournal (v : Nat)
| fProvided (v : Nat)
deriving DecidableEq

/-- read_superblock, main.c lines 286-311.  `bytes` is what the single
read(2) of the 24-byte superblock returned; its length is the read's
return value.  Failure (null device, open failure, short read, bad magic
or bad version) yields no superblock; all but the first two also print
the "No header detected" report. -/
def read_superblock (deviceSome opened : Bool) (bytes : List Nat) :
    List DumpLine × Option Superblock :=
  if deviceSome = false then ([], none)
  else if opened = false then ([], none)
  else if bytes.length ≠ 24 ∨ bytes.take 8 ≠ SB_MAGIC_BYTES ∨
          bytes.getD 8 0 ≠ SB_VERSION then
    ([DumpLine.noHeader], none)
  else
    ([], some
      { magic := bytes.take 8
        version := bytes.getD 8 0
        log2_interleave_sectors := int8 (bytes.getD 9 0)
        integrity_tag_size := leVal ((bytes.drop 10).take 2)
        journal_sections := leVal ((bytes.drop 12).take 4)
        provided_data_sectors := leVal ((bytes.drop 16).take 8) })

/-- cmd_dump, main.c lines 313-328: on read_superblock failure return its
status without printing any field, otherwise print the fields verbatim. -/
def cmd_dump (deviceSome opened : Bool) (bytes : List Nat) : List DumpLine × Nat :=
  match read_superblock deviceSome opened bytes with
  | (msgs, none) => (msgs, 1)
  | (msgs, some sb) =>
    (msgs ++ [DumpLine.info, DumpLine.fLog2 sb.log2_interleave_sectors,
              DumpLine.fTag sb.integrity_tag_size,
              DumpLine.fJournal sb.journal_sections,
              DumpLine.fProvided sb.provided_data_sectors], 0)

/-- A fully healthy environment. -/
def devH : Dev :=
  { mallocOk := true, openOk := true,
    seekOk := fun _ => true, seekErrno := fun _ => 0,
    readFull := fun _ _ => true, readErrno := fun _ _ => 0,
    writeFull := fun _ _ => true, writeErrno := fun _ _ => 0,
    fsyncOk := true, fsyncErrno := 0 }

/-- Environment where the seek at byte offset 512 (sector 1) fails with
errno 13 and every multi-sector read is short while single-sector reads
succeed. -/
def devA : Dev :=
  { devH with
    seekOk := fun o => decide (o ≠ 512), seekErrno := fun _ => 13,
    readFull := fun _ l => decide (l = 512) }

/-- Environment where the single-sector read of sector 1 fails with
errno 22 (not a media error) and every multi-sector read is short. -/
def devB : Dev :=
  { devH with
    readFull := fun o l => decide (l = 512 ∧ o ≠ 512),
    readErrno := fun _ _ => 22 }

/-- Environment where the single-sector read of sector 1 fails with
errno 5 (EIO, an expected media error) and every multi-sector read is
short. -/
def devC : Dev :=
  { devH with
    readFull := fun o l => decide (l = 512 ∧ o ≠ 512),
    readErrno := fun _ _ => 5 }

theorem writeEvents_append (a b : List Ev) :
    writeEvents (a ++ b) = writeEvents a ++ writeEvents b := by
  induction a with
  | nil => simp [writeEvents]
  | cons e es ih => cases e <;> simp [writeEvents, ih]

theorem readEvents_append (a b : List Ev) :
    readEvents (a ++ b) = readEvents a ++ readEvents b := by
  induction a with
  | nil => simp [readEvents]
  | cons e es ih => cases e <;> simp [readEvents, ih]

theorem writeEvents_eq_nil (l : List Ev) :
    writeEvents l = [] ↔ ∀ o k, Ev.write o k ∉ l := by
  induction l with
  | nil => simp [writeEvents]
  | cons e es ih =>
    cases e with
    | write o k =>
      simp only [writeEvents, List.mem_cons]
      constructor
      · intro h
        exact absurd h (List.cons_ne_nil _ _)
      · intro h
        exact ((h o k) (Or.inl rfl)).elim
    | openDev m => simp [writeEvents, ih]
    | read o k => simp [writeEvents, ih]
    | fsync => simp [writeEvents, ih]
    | close => simp [writeEvents, ih]
    | progress a b f => simp [writeEvents, ih]
    | print m => simp [writeEvents, ih]

theorem checkLoop_no_write (dev : Dev) (dc : DevCommand) (hdc : dc ≠ DevCommand.DEV_FIX) :
    ∀ k s, writeEvents (checkLoop dev dc k s) = [] := by
  intro k
  induction k with
  | zero => intro s; simp [checkLoop, writeEvents]
  | succ k ih =>
    intro s
    simp only [checkLoop]
    split_ifs <;>
      first
        | (simp [writeEvents]; done)
        | (simpa [writeEvents] using ih (s+1))

theorem rwLoopF_check_no_write (dev : Dev) (bs n : Nat) :
    ∀ fuel off evs ab eo,
      rwLoopF dev bs DevCommand.DEV_CHECK fuel off n = some (evs, ab, eo) →
      writeEvents evs = [] := by
  intro fuel
  induction fuel with
  | zero => intro off evs ab eo h; simp [rwLoopF] at h
  | succ fuel ih =>
    intro off evs ab eo h
    simp only [rwLoopF] at h
    split at h
    · split at h
      · simp only [Option.some.injEq, Prod.mk.injEq] at h
        obtain ⟨h1, h2, h3⟩ := h
        subst h1
        simp [writeEvents]
      · split at h
        · simp at h
        · rename_i evs' ab' eo' heq
          simp only [Option.some.injEq, Prod.mk.injEq] at h
          obtain ⟨h1, h2, h3⟩ := h
          subst h1
          have hev := ih _ _ _ _ heq
          have hck := checkLoop_no_write dev DevCommand.DEV_CHECK (by simp)
              (if off + bs > n then n - off else bs) off
          rw [writeEvents_append]
          simp only [show (DevCommand.DEV_CHECK = DevCommand.DEV_FORMAT) = False from by simp,
            if_false]
          split <;> simp_all [writeEvents, check_one_by_one] <;>
            (split <;> simp_all [writeEvents])
    · simp only [Option.some.injEq, Prod.mk.injEq] at h
      obtain ⟨h1, h2, h3⟩ := h
      subst h1
      simp [writeEvents]

/-- C5: a seek failure inside the main chunk loop is fatal: the engine
reports it, performs no further chunk work, closes the device handle and
returns the failure status 1. -/
theorem main_loop_seek_fatal (dev : Dev) (block_sectors offset_sec dev_size_sec : Nat)
    (dc : DevCommand) (hm : dev.mallocOk = true) (ho : dev.openOk = true)
    (hlt : offset_sec < dev_size_sec)
    (hs : dev.seekOk (offset_sec * SECTOR_SIZE) = false) :
    rw_sectors dev block_sectors offset_sec dev_size_sec dc =
      some ([Ev.openDev (openMode dc),
             Ev.print (Msg.seekErr offset_sec (dev.seekErrno (offset_sec * SECTOR_SIZE))),
             Ev.close], 1) := by
  simp [rw_sectors, hm, ho, rwLoopF, hlt, hs]

theorem main_loop_seek_fatal_witness :
    rw_sectors devA 1 1 2 DevCommand.DEV_CHECK =
      some ([Ev.openDev (openMode DevCommand.DEV_CHECK),
             Ev.print (Msg.seekErr 1 (devA.seekErrno (1 * SECTOR_SIZE))),
             Ev.close], 1) :=
  main_loop_seek_fatal devA 1 1 2 DevCommand.DEV_CHECK rfl rfl (by decide) (by decide)

/-- C10: on a zero-sector extent the chunk loop body never runs, no read
or write is issued in any mode, yet the handle is flushed and closed and
the exit status is 0. -/
theorem empty_extent_noop (dev : Dev) (block_sectors : Nat) (dc : DevCommand)
    (hm : dev.mallocOk = true) (ho : dev.openOk = true) :
    ∃ tr, rw_sectors dev block_sectors 0 0 dc = some (tr, 0) ∧
      readEvents tr = [] ∧ writeEvents tr = [] ∧ Ev.fsync ∈ tr ∧ Ev.close ∈ tr := by
  cases hf : dev.fsyncOk with
  | true =>
    refine ⟨[Ev.openDev (openMode dc), Ev.fsync, Ev.close, Ev.progress 0 0 true],
      ?_, ?_, ?_, ?_, ?_⟩ <;>
      simp [rw_sectors, hm, ho, hf, rwLoopF, readEvents, writeEvents]
  | false =>
    refine ⟨[Ev.openDev (openMode dc), Ev.fsync, Ev.print (Msg.fsyncErr dev.fsyncErrno),
             Ev.close, Ev.progress 0 0 true], ?_, ?_, ?_, ?_, ?_⟩ <;>
      simp [rw_sectors, hm, ho, hf, rwLoopF, readEvents, writeEvents]

theorem empty_extent_noop_witness :
    ∃ tr, rw_sectors devH 8192 0 0 DevCommand.DEV_FIX = some (tr, 0) ∧
      readEvents tr = [] ∧ writeEvents tr = [] ∧ Ev.fsync ∈ tr ∧ Ev.close ∈ tr :=
  empty_extent_noop devH 8192 DevCommand.DEV_FIX rfl rfl

/-- C3: in Check mode the device is opened read-only and the whole run
(bulk path and per-sector fallback alike) never issues a write(2), for
every environment, i.e. for every pattern of read outcomes. -/
theorem check_mode_no_writes (dev : Dev) (block_sectors offset_sec dev_size_sec : Nat)
    (tr : List Ev) (rc : Nat)
    (h : rw_sectors dev block_sectors offset_sec dev_size_sec DevCommand.DEV_CHECK =
           some (tr, rc)) :
    writeEvents tr = [] ∧ openMode DevCommand.DEV_CHECK = Mode.readOnly := by
  refine ⟨?_, by simp [openMode]⟩
  simp only [rw_sectors] at h
  split at h
  · simp only [Option.some.injEq, Prod.mk.injEq] at h
    obtain ⟨h1, h2⟩ := h
    subst h1
    simp [writeEvents]
  · split at h
    · simp only [Option.some.injEq, Prod.mk.injEq] at h
      obtain ⟨h1, h2⟩ := h
      subst h1
      simp [writeEvents]
    · split at h
      · simp at h
      · rename_i evs eo heq
        simp only [Option.some.injEq, Prod.mk.injEq] at h
        obtain ⟨h1, h2⟩ := h
        subst h1
        have hw := rwLoopF_check_no_write dev block_sectors dev_size_sec _ _ _ _ _ heq
        simp [writeEvents, writeEvents_append, hw]
      · rename_i evs endOff heq
        simp only [Option.some.injEq, Prod.mk.injEq] at h
        obtain ⟨h1, h2⟩ := h
        subst h1
        have hw := rwLoopF_check_no_write dev block_sectors dev_size_sec _ _ _ _ _ heq
        cases dev.fsyncOk <;> simp [writeEvents, writeEvents_append, hw]

theorem check_mode_no_writes_witness :
    writeEvents [Ev.openDev Mode.readOnly, Ev.read 0 1024, Ev.read 0 512, Ev.read 512 512,
      Ev.print (Msg.unexpectedErr 1 22), Ev.progress 1536 1024 false, Ev.read 1024 512,
      Ev.progress 1536 1536 false, Ev.fsync, Ev.close, Ev.progress 1536 1536 true] = [] ∧
    openMode DevCommand.DEV_CHECK = Mode.readOnly :=
  check_mode_no_writes devB 2 0 3 _ 0 (by decide)

theorem checkLoop_write_mem (dev : Dev) (dc : DevCommand) :
    ∀ k s o l, Ev.write o l ∈ checkLoop dev dc k s →
      l = SECTOR_SIZE ∧ dev.readFull o SECTOR_SIZE = false ∧
      (dev.readErrno o SECTOR_SIZE = eioNum ∨ dev.readErrno o SECTOR_SIZE = eilseqNum) := by
  intro k
  induction k with
  | zero => intro s o l h; simp [checkLoop] at h
  | succ k ih =>
    intro s o l h
    simp only [checkLoop] at h
    split_ifs at h with h1 h2 h3 h4 h5
    · simp at h
    · simp at h
      exact ih (s+1) o l h
    · simp at h
    · simp at h
      exact ih (s+1) o l h
    · simp at h
      rcases h with ⟨ho, hl⟩ | h
      · subst ho
        subst hl
        refine ⟨rfl, by simpa using h2, ?_⟩
        rcases Decidable.em (dev.readErrno (s * SECTOR_SIZE) SECTOR_SIZE = eioNum) with he | he
        · exact Or.inl he
        · right
          by_contra hn
          exact h3 ⟨he, hn⟩
      · exact ih (s+1) o l h
    · simp at h
      rcases h with ⟨ho, hl⟩ | h
      · subst ho
        subst hl
        refine ⟨rfl, by simpa using h2, ?_⟩
        rcases Decidable.em (dev.readErrno (s * SECTOR_SIZE) SECTOR_SIZE = eioNum) with he | he
        · exact Or.inl he
        · right
          by_contra hn
          exact h3 ⟨he, hn⟩
      · exact ih (s+1) o l h

theorem rwLoopF_fix_write_mem (dev : Dev) (bs n : Nat) :
    ∀ fuel off evs ab eo,
      rwLoopF dev bs DevCommand.DEV_FIX fuel off n = some (evs, ab, eo) →
      ∀ o l, Ev.write o l ∈ evs →
        l = SECTOR_SIZE ∧ dev.readFull o SECTOR_SIZE = false ∧
        (dev.readErrno o SECTOR_SIZE = eioNum ∨ dev.readErrno o SECTOR_SIZE = eilseqNum) := by
  intro fuel
  induction fuel with
  | zero => intro off evs ab eo h; simp [rwLoopF] at h
  | succ fuel ih =>
    intro off evs ab eo h o l hmem
    simp only [rwLoopF] at h
    split at h
    · split at h
      · simp only [Option.some.injEq, Prod.mk.injEq] at h
        obtain ⟨h1, h2, h3⟩ := h
        subst h1
        simp at hmem
      · split at h
        · simp at h
        · rename_i evs' ab' eo' heq
          simp only [Option.some.injEq, Prod.mk.injEq] at h
          obtain ⟨h1, h2, h3⟩ := h
          subst h1
          simp only [show (DevCommand.DEV_FIX = DevCommand.DEV_FORMAT) = False from by simp,
            if_false, List.mem_append, List.mem_cons] at hmem
          rcases hmem with (hm | hm) | (hm | hm)
          · simp at hm
          · simp at hm
            exact checkLoop_write_mem dev DevCommand.DEV_FIX _ _ o l
              (by simpa [check_one_by_one] using hm.2)
          · simp at hm
          · exact ih _ _ _ _ heq o l hm
    · simp only [Option.some.injEq, Prod.mk.injEq] at h
      obtain ⟨h1, h2, h3⟩ := h
      subst h1
      simp at hmem

/-- C4: in Fix mode a sector is rewritten only when its single-sector
read came back short with an expected-media-error errno (EIO or EILSEQ);
and over a device whose reads all succeed, a Fix pass performs zero
writes. -/
theorem fix_rewrites_only_expected (dev : Dev) (block_sectors offset_sec dev_size_sec : Nat)
    (tr : List Ev) (rc : Nat)
    (h : rw_sectors dev block_sectors offset_sec dev_size_sec DevCommand.DEV_FIX =
           some (tr, rc)) :
    (∀ o l, Ev.write o l ∈ tr →
       l = SECTOR_SIZE ∧ dev.readFull o SECTOR_SIZE = false ∧
       (dev.readErrno o SECTOR_SIZE = eioNum ∨ dev.readErrno o SECTOR_SIZE = eilseqNum)) ∧
    ((∀ o l, dev.readFull o l = true) → writeEvents tr = []) := by
  have main : ∀ o l, Ev.write o l ∈ tr →
      l = SECTOR_SIZE ∧ dev.readFull o SECTOR_SIZE = false ∧
      (dev.readErrno o SECTOR_SIZE = eioNum ∨ dev.readErrno o SECTOR_SIZE = eilseqNum) := by
    intro o l hmem
    simp only [rw_sectors] at h
    split at h
    · simp only [Option.some.injEq, Prod.mk.injEq] at h
      obtain ⟨h1, h2⟩ := h
      subst h1
      simp at hmem
    · split at h
      · simp only [Option.some.injEq, Prod.mk.injEq] at h
        obtain ⟨h1, h2⟩ := h
        subst h1
        simp at hmem
      · split at h
        · simp at h
        · rename_i evs eo heq
          simp only [Option.some.injEq, Prod.mk.injEq] at h
          obtain ⟨h1, h2⟩ := h
          subst h1
          simp at hmem
          exact rwLoopF_fix_write_mem dev block_sectors dev_size_sec _ _ _ _ _ heq o l hmem
        · rename_i evs endOff heq
          simp only [Option.some.injEq, Prod.mk.injEq] at h
          obtain ⟨h1, h2⟩ := h
          subst h1
          cases hf : dev.fsyncOk <;> simp [hf] at hmem <;>
            exact rwLoopF_fix_write_mem dev block_sectors dev_size_sec _ _ _ _ _ heq o l hmem
  refine ⟨main, ?_⟩
  intro hall
  rw [writeEvents_eq_nil]
  intro o k hmem
  have hbad := (main o k hmem).2.1
  simp [hall o SECTOR_SIZE] at hbad

theorem fix_rewrites_only_expected_witness :
    (512 = SECTOR_SIZE ∧ devC.readFull 512 SECTOR_SIZE = false ∧
      (devC.readErrno 512 SECTOR_SIZE = eioNum ∨ devC.readErrno 512 SECTOR_SIZE = eilseqNum)) ∧
    writeEvents [Ev.openDev Mode.readWrite, Ev.read 0 1024, Ev.progress 1024 1024 false,
      Ev.fsync, Ev.close, Ev.progress 1024 1024 true] = [] :=
  ⟨(fix_rewrites_only_expected devC 2 0 2
      [Ev.openDev Mode.readWrite, Ev.read 0 1024, Ev.read 0 512, Ev.read 512 512,
       Ev.write 512 512, Ev.print (Msg.wiped 1), Ev.progress 1024 1024 false,
       Ev.fsync, Ev.close, Ev.progress 1024 1024 true] 0 (by decide)).1 512 512 (by decide),
   (fix_rewrites_only_expected devH 2 0 2 _ 0 (by decide)).2 (fun _ _ => rfl)⟩

theorem rwLoopF_no_abort (dev : Dev) (bs : Nat) (dc : DevCommand)
    (hs : ∀ o, dev.seekOk o = true) :
    ∀ fuel off n evs eo, rwLoopF dev bs dc fuel off n ≠ some (evs, true, eo) := by
  intro fuel
  induction fuel with
  | zero => intro off n evs eo h; simp [rwLoopF] at h
  | succ fuel ih =>
    intro off n evs eo h
    simp only [rwLoopF] at h
    split at h
    · split at h
      · rename_i hc
        rw [hs (off * SECTOR_SIZE)] at hc
        simp at hc
      · split at h
        · simp at h
        · rename_i evs' ab' eo' heq
          simp only [Option.some.injEq, Prod.mk.injEq] at h
          obtain ⟨h1, h2, h3⟩ := h
          subst h2
          exact ih _ _ _ _ heq
    · simp at h

set_option maxRecDepth 4000 in
theorem checkLoop_stops (dev : Dev) (dc : DevCommand) :
    ∀ k b off, k < b →
      (∀ j, j < k → dev.seekOk ((off + j) * SECTOR_SIZE) = true ∧
                    dev.readFull ((off + j) * SECTOR_SIZE) SECTOR_SIZE = true) →
      (dev.seekOk ((off + k) * SECTOR_SIZE) = false ∨
       (dev.readFull ((off + k) * SECTOR_SIZE) SECTOR_SIZE = false ∧
        dev.readErrno ((off + k) * SECTOR_SIZE) SECTOR_SIZE ≠ eioNum ∧
        dev.readErrno ((off + k) * SECTOR_SIZE) SECTOR_SIZE ≠ eilseqNum)) →
      checkLoop dev dc b off =
        ((List.range k).map (fun j => Ev.read ((off + j) * SECTOR_SIZE) SECTOR_SIZE)) ++
        (if dev.seekOk ((off + k) * SECTOR_SIZE) = false then
           [Ev.print (Msg.seekErr (off + k) (dev.seekErrno ((off + k) * SECTOR_SIZE)))]
         else
           [Ev.read ((off + k) * SECTOR_SIZE) SECTOR_SIZE,
            Ev.print (Msg.unexpectedErr (off + k)
              (dev.readErrno ((off + k) * SECTOR_SIZE) SECTOR_SIZE))]) := by
  intro k
  induction k with
  | zero =>
    intro b off hk hpre hfail
    obtain ⟨b', rfl⟩ : ∃ b', b = b' + 1 := ⟨b - 1, by omega⟩
    simp only [Nat.add_zero] at hfail ⊢
    simp only [List.range_zero, List.map_nil, List.nil_append]
    by_cases hseek : dev.seekOk (off * SECTOR_SIZE) = false
    · rw [if_pos hseek]
      simp [checkLoop, hseek]
    · rw [if_neg hseek]
      rcases hfail with hf | ⟨hrf, he1, he2⟩
      · exact absurd hf hseek
      · simp [checkLoop, hseek, hrf, he1, he2]
  | succ k ih =>
    intro b off hk hpre hfail
    obtain ⟨b', rfl⟩ : ∃ b', b = b' + 1 := ⟨b - 1, by omega⟩
    have h0 := hpre 0 (by omega)
    rw [Nat.add_zero] at h0
    have hrec := ih b' (off + 1) (by omega)
      (fun j hj => by
        have hj2 := hpre (j+1) (by omega)
        rw [show off + (j + 1) = off + 1 + j by omega] at hj2
        exact hj2)
      (by
        rw [show off + 1 + k = off + (k + 1) by omega]
        exact hfail)
    have hstep : checkLoop dev dc (b' + 1) off =
        Ev.read (off * SECTOR_SIZE) SECTOR_SIZE :: checkLoop dev dc b' (off + 1) := by
      simp [checkLoop, h0.1, h0.2]
    rw [hstep, hrec]
    rw [List.range_succ_eq_map]
    simp only [List.map_cons, List.map_map, List.cons_append, Nat.add_zero]
    rw [show off + 1 + k = off + (k + 1) by omega]
    congr 1
    congr 1
    apply List.map_congr_left
    intro j hj
    simp only [Function.comp_apply, Nat.succ_eq_add_one]
    congr 2
    omega

/-- C2 counterexample: in a three-sector chunk walk, a seek failure at
sector 1 (devA) and an unexpected-errno read failure at sector 1 (devB)
are each reported, but the walk returns immediately: sector 2 (byte
offset 1024) is never read, contradicting the claim that processing
continues to the next sector of the chunk. -/
theorem fallback_continue_claim_false :
    (check_one_by_one devA 3 0 DevCommand.DEV_CHECK =
       [Ev.read 0 512, Ev.print (Msg.seekErr 1 13)] ∧
     Ev.read 1024 512 ∉ check_one_by_one devA 3 0 DevCommand.DEV_CHECK) ∧
    (check_one_by_one devB 3 0 DevCommand.DEV_CHECK =
       [Ev.read 0 512, Ev.read 512 512, Ev.print (Msg.unexpectedErr 1 22)] ∧
     Ev.read 1024 512 ∉ check_one_by_one devB 3 0 DevCommand.DEV_CHECK) := by
  decide

/-- C2 amended: in the per-sector fallback, when the sectors before
offset + k are healthy and at sector offset + k either the seek fails or
the read fails with an errno that is not an expected media error, the
walk reads the healthy prefix, reports the failing sector, and returns:
none of the remaining sectors of the chunk is visited.  The failure does
not abort the outer scan: with all seeks succeeding, rw_sectors still
exits with status 0 whatever the read outcomes. -/
theorem fallback_failure_stops_walk (dev : Dev) (b off k : Nat) (dc : DevCommand)
    (hk : k < b)
    (hpre : ∀ j, j < k → dev.seekOk ((off + j) * SECTOR_SIZE) = true ∧
                         dev.readFull ((off + j) * SECTOR_SIZE) SECTOR_SIZE = true)
    (hfail : dev.seekOk ((off + k) * SECTOR_SIZE) = false ∨
             (dev.readFull ((off + k) * SECTOR_SIZE) SECTOR_SIZE = false ∧
              dev.readErrno ((off + k) * SECTOR_SIZE) SECTOR_SIZE ≠ eioNum ∧
              dev.readErrno ((off + k) * SECTOR_SIZE) SECTOR_SIZE ≠ eilseqNum)) :
    (check_one_by_one dev b off dc =
      ((List.range k).map (fun j => Ev.read ((off + j) * SECTOR_SIZE) SECTOR_SIZE)) ++
      (if dev.seekOk ((off + k) * SECTOR_SIZE) = false then
         [Ev.print (Msg.seekErr (off + k) (dev.seekErrno ((off + k) * SECTOR_SIZE)))]
       else
         [Ev.read ((off + k) * SECTOR_SIZE) SECTOR_SIZE,
          Ev.print (Msg.unexpectedErr (off + k)
            (dev.readErrno ((off + k) * SECTOR_SIZE) SECTOR_SIZE))])) ∧
    ((∀ o, dev.seekOk o = true) → dev.mallocOk = true → dev.openOk = true →
      ∀ n tr rc, rw_sectors dev b 0 n dc = some (tr, rc) → rc = 0) := by
  constructor
  · exact checkLoop_stops dev dc k b off hk hpre hfail
  · intro hsall hm ho n tr rc h
    simp [rw_sectors, hm, ho] at h
    split at h
    · simp at h
    · rename_i evs eo heq
      exact absurd heq (rwLoopF_no_abort dev b dc hsall _ _ _ _ _)
    · simp only [Option.some.injEq, Prod.mk.injEq] at h
      exact h.2.symm

theorem fallback_failure_stops_walk_witness :
    check_one_by_one devB 3 0 DevCommand.DEV_CHECK =
      [Ev.read 0 512, Ev.read 512 512, Ev.print (Msg.unexpectedErr 1 22)] ∧ (0 : Nat) = 0 :=
  ⟨((fallback_failure_stops_walk devB 3 0 1 DevCommand.DEV_CHECK (by decide)
      (by decide) (by decide)).1).trans (by decide),
   (fallback_failure_stops_walk devB 3 0 1 DevCommand.DEV_CHECK (by decide)
      (by decide) (by decide)).2 (fun _ => rfl) rfl rfl 3
      [Ev.openDev Mode.readOnly, Ev.read 0 1536, Ev.read 0 512, Ev.read 512 512,
       Ev.print (Msg.unexpectedErr 1 22), Ev.progress 1536 1536 false,
       Ev.fsync, Ev.close, Ev.progress 1536 1536 true] 0 (by decide)⟩

theorem checkLoop_no_final (dev : Dev) (dc : DevCommand) :
    ∀ k s, (checkLoop dev dc k s).filter isFinalProgress = [] := by
  intro k
  induction k with
  | zero => intro s; simp [checkLoop]
  | succ k ih =>
    intro s
    simp only [checkLoop]
    split_ifs <;>
      first
        | (simp [isFinalProgress]; done)
        | (simpa [isFinalProgress, List.filter_cons] using ih (s+1))

theorem rwLoopF_no_final (dev : Dev) (bs n : Nat) (dc : DevCommand) :
    ∀ fuel off evs ab eo,
      rwLoopF dev bs dc fuel off n = some (evs, ab, eo) →
      evs.filter isFinalProgress = [] := by
  intro fuel
  induction fuel with
  | zero => intro off evs ab eo h; simp [rwLoopF] at h
  | succ fuel ih =>
    intro off evs ab eo h
    simp only [rwLoopF] at h
    split at h
    · split at h
      · simp only [Option.some.injEq, Prod.mk.injEq] at h
        obtain ⟨h1, h2, h3⟩ := h
        subst h1
        simp [isFinalProgress]
      · split at h
        · simp at h
        · rename_i evs' ab' eo' heq
          simp only [Option.some.injEq, Prod.mk.injEq] at h
          obtain ⟨h1, h2, h3⟩ := h
          subst h1
          have hev := ih _ _ _ _ heq
          have hck := checkLoop_no_final dev dc
          rw [List.filter_append]
          split <;> simp_all [isFinalProgress, List.filter_cons, check_one_by_one] <;>
            (intro a _ hmem; exact hck _ _ a hmem)
    · simp only [Option.some.injEq, Prod.mk.injEq] at h
      obtain ⟨h1, h2, h3⟩ := h
      subst h1
      simp

/-- C6 amended: an operation whose chunk loop completes (exit status 0)
invokes the progress reporter exactly once more with the final flag set,
as the very last event; the final call bypasses the 0.5-second throttle,
but it still emits nothing when it is the very first reporter call, when
the elapsed time is zero, or when the cumulative MiB count rounds to
zero; otherwise it emits the permanent summary with the elapsed time,
the MiB count and the average throughput. -/
theorem final_progress_guarded (dev : Dev) (block_sectors offset_sec dev_size_sec : Nat)
    (dc : DevCommand) (tr : List Ev) (st : ProgState) (now : Timeval) (ds b : Nat)
    (h : rw_sectors dev block_sectors offset_sec dev_size_sec dc = some (tr, 0))
    (hst : st.start ≠ tvZero)
    (ht : time_diff st.start now ≠ 0)
    (hb : b / 1024 / 1024 ≠ 0) :
    (∃ eo, tr.getLast? =
       some (Ev.progress (dev_size_sec * SECTOR_SIZE) (eo * SECTOR_SIZE) true)) ∧
    (tr.filter isFinalProgress).length = 1 ∧
    print_progress st now ds b true =
      ({ st with endT := now },
       some (PReport.finished (time_diff st.start now) (b / 1024 / 1024)
         (((b / 1024 / 1024 : Nat) : ℚ) / time_diff st.start now))) := by
  have hpp : print_progress st now ds b true =
      ({ st with endT := now },
       some (PReport.finished (time_diff st.start now) (b / 1024 / 1024)
         (((b / 1024 / 1024 : Nat) : ℚ) / time_diff st.start now))) := by
    have hmib : ((b / 1024 / 1024 : Nat) : ℚ) / time_diff st.start now ≠ 0 :=
      div_ne_zero (Nat.cast_ne_zero.mpr hb) ht
    simp only [print_progress, if_neg hst]
    simp only [show (true = false) = False from by simp, false_and, if_false]
    rw [if_neg ht, if_neg hmib]
    simp
  simp only [rw_sectors] at h
  split at h
  · simp at h
  · split at h
    · simp at h
    · split at h
      · simp at h
      · simp at h
      · rename_i evs endOff heq
        simp only [Option.some.injEq, Prod.mk.injEq] at h
        obtain ⟨h1, h2⟩ := h
        subst h1
        have hfev := rwLoopF_no_final dev block_sectors dev_size_sec dc _ _ _ _ _ heq
        refine ⟨⟨endOff, ?_⟩, ?_, hpp⟩
        · rw [show Ev.openDev (openMode dc) :: evs ++
                Ev.fsync ::
                (if dev.fsyncOk then [] else [Ev.print (Msg.fsyncErr dev.fsyncErrno)]) ++
                [Ev.close,
                 Ev.progress (dev_size_sec * SECTOR_SIZE) (endOff * SECTOR_SIZE) true] =
              (Ev.openDev (openMode dc) :: evs ++
                Ev.fsync ::
                (if dev.fsyncOk then [] else [Ev.print (Msg.fsyncErr dev.fsyncErrno)]) ++
                [Ev.close]) ++
              [Ev.progress (dev_size_sec * SECTOR_SIZE) (endOff * SECTOR_SIZE) true] from by
            simp]
          exact List.getLast?_concat _
        · cases hf : dev.fsyncOk <;>
            simp [hf, List.filter_append, List.filter_cons, isFinalProgress, hfev]

theorem final_progress_guarded_witness :
    (∃ eo, ([Ev.openDev Mode.readOnly, Ev.read 0 1024, Ev.progress 1536 1024 false,
             Ev.read 1024 512, Ev.progress 1536 1536 false, Ev.fsync, Ev.close,
             Ev.progress 1536 1536 true] : List Ev).getLast? =
       some (Ev.progress (3 * SECTOR_SIZE) (eo * SECTOR_SIZE) true)) ∧
    (([Ev.openDev Mode.readOnly, Ev.read 0 1024, Ev.progress 1536 1024 false,
       Ev.read 1024 512, Ev.progress 1536 1536 false, Ev.fsync, Ev.close,
       Ev.progress 1536 1536 true] : List Ev).filter isFinalProgress).length = 1 ∧
    print_progress ⟨⟨1,0⟩,⟨1,0⟩⟩ ⟨3,0⟩ 1536 2097152 true =
      (⟨⟨1,0⟩,⟨3,0⟩⟩,
       some (PReport.finished (time_diff ⟨1,0⟩ ⟨3,0⟩) (2097152 / 1024 / 1024)
         (((2097152 / 1024 / 1024 : Nat) : ℚ) / time_diff ⟨1,0⟩ ⟨3,0⟩))) :=
  final_progress_guarded devH 2 0 3 DevCommand.DEV_CHECK _ ⟨⟨1,0⟩,⟨1,0⟩⟩ ⟨3,0⟩ 1536 2097152
    (by decide) (by decide) (by norm_num [time_diff]) (by decide)

/-- C6 counterexample: a completed check of a 10-sector device (exit
status 0) whose three reporter calls happen at seconds 1, 2 and 3: every
call, the final one included, emits nothing, because the cumulative MiB
count rounds to 0 — no terminal summary is produced even though the
reporter was invoked with the final flag after the loop. -/
theorem final_progress_unconditional_false :
    ((rw_sectors devH 8 0 10 DevCommand.DEV_CHECK).getD ([], 1)).2 = 0 ∧
    progressReports initProgState [⟨1,0⟩, ⟨2,0⟩, ⟨3,0⟩]
      ((rw_sectors devH 8 0 10 DevCommand.DEV_CHECK).getD ([], 1)).1 =
      [none, none, none] := by
  have hrw : rw_sectors devH 8 0 10 DevCommand.DEV_CHECK =
      some ([Ev.openDev Mode.readOnly, Ev.read 0 4096, Ev.progress 5120 4096 false,
             Ev.read 4096 1024, Ev.progress 5120 5120 false, Ev.fsync, Ev.close,
             Ev.progress 5120 5120 true], 0) := by decide
  rw [hrw]
  refine ⟨rfl, ?_⟩
  norm_num [progressReports, print_progress, initProgState, tvZero, time_diff]

theorem read_superblock_msgs (deviceSome opened : Bool) (bytes : List Nat) :
    (read_superblock deviceSome opened bytes).1 = [] ∨
    (read_superblock deviceSome opened bytes).1 = [DumpLine.noHeader] := by
  unfold read_superblock
  split
  · exact Or.inl rfl
  · split
    · exact Or.inl rfl
    · split
      · exact Or.inr rfl
      · exact Or.inl rfl

/-- C7: on a full 24-byte header read, the dump fails with the "No
header detected" report exactly when the 8-byte magic differs from
"integrt" plus a trailing zero byte or the version byte differs from 1;
otherwise it prints the remaining fields after little-endian decoding of
the 2-, 4- and 8-byte numeric fields and succeeds. -/
theorem dump_magic_version (bytes : List Nat) (h24 : bytes.length = 24) :
    cmd_dump true true bytes =
      if bytes.take 8 ≠ SB_MAGIC_BYTES ∨ bytes.getD 8 0 ≠ SB_VERSION then
        ([DumpLine.noHeader], 1)
      else
        ([DumpLine.info, DumpLine.fLog2 (int8 (bytes.getD 9 0)),
          DumpLine.fTag (leVal ((bytes.drop 10).take 2)),
          DumpLine.fJournal (leVal ((bytes.drop 12).take 4)),
          DumpLine.fProvided (leVal ((bytes.drop 16).take 8))], 0) := by
  by_cases hbad : bytes.take 8 ≠ SB_MAGIC_BYTES ∨ bytes.getD 8 0 ≠ SB_VERSION
  · rw [if_pos hbad]
    have hc : bytes.length ≠ 24 ∨ bytes.take 8 ≠ SB_MAGIC_BYTES ∨
        bytes.getD 8 0 ≠ SB_VERSION := Or.inr hbad
    unfold cmd_dump read_superblock
    rw [if_neg (by simp : ¬(true = false)), if_neg (by simp : ¬(true = false)), if_pos hc]
  · rw [if_neg hbad]
    push_neg at hbad
    have hc : ¬(bytes.length ≠ 24 ∨ bytes.take 8 ≠ SB_MAGIC_BYTES ∨
        bytes.getD 8 0 ≠ SB_VERSION) := by
      push_neg
      exact ⟨h24, hbad.1, hbad.2⟩
    unfold cmd_dump read_superblock
    rw [if_neg (by simp : ¬(true = false)), if_neg (by simp : ¬(true = false)), if_neg hc]
    simp

theorem dump_magic_version_witness :
    cmd_dump true true
        [105, 110, 116, 101, 103, 114, 116, 0, 1, 250, 2, 1, 4, 3, 2, 1,
         8, 7, 6, 5, 4, 3, 2, 1] =
      if ([105, 110, 116, 101, 103, 114, 116, 0, 1, 250, 2, 1, 4, 3, 2, 1,
           8, 7, 6, 5, 4, 3, 2, 1] : List Nat).take 8 ≠ SB_MAGIC_BYTES ∨
         ([105, 110, 116, 101, 103, 114, 116, 0, 1, 250, 2, 1, 4, 3, 2, 1,
           8, 7, 6, 5, 4, 3, 2, 1] : List Nat).getD 8 0 ≠ SB_VERSION then
        ([DumpLine.noHeader], 1)
      else
        ([DumpLine.info,
          DumpLine.fLog2 (int8 (([105, 110, 116, 101, 103, 114, 116, 0, 1, 250, 2, 1, 4, 3,
            2, 1, 8, 7, 6, 5, 4, 3, 2, 1] : List Nat).getD 9 0)),
          DumpLine.fTag (leVal ((([105, 110, 116, 101, 103, 114, 116, 0, 1, 250, 2, 1, 4, 3,
            2, 1, 8, 7, 6, 5, 4, 3, 2, 1] : List Nat).drop 10).take 2)),
          DumpLine.fJournal (leVal ((([105, 110, 116, 101, 103, 114, 116, 0, 1, 250, 2, 1, 4,
            3, 2, 1, 8, 7, 6, 5, 4, 3, 2, 1] : List Nat).drop 12).take 4)),
          DumpLine.fProvided (leVal ((([105, 110, 116, 101, 103, 114, 116, 0, 1, 250, 2, 1, 4,
            3, 2, 1, 8, 7, 6, 5, 4, 3, 2, 1] : List Nat).drop 16).take 8))], 0) :=
  dump_magic_version
    [105, 110, 116, 101, 103, 114, 116, 0, 1, 250, 2, 1, 4, 3, 2, 1,
     8, 7, 6, 5, 4, 3, 2, 1] (by decide)

/-- C9: a short header read (fewer than the 24 superblock bytes) also
fails with the "No header detected" report, not only a magic or version
mismatch; and whenever the dump fails, no field line is printed. -/
theorem dump_short_read_fails (deviceSome opened : Bool) (bytes : List Nat)
    (hshort : bytes.length < 24) :
    read_superblock true true bytes = ([DumpLine.noHeader], none) ∧
    ((cmd_dump deviceSome opened bytes).2 ≠ 0 →
      ∀ line ∈ (cmd_dump deviceSome opened bytes).1, line = DumpLine.noHeader) := by
  constructor
  · have hc : bytes.length ≠ 24 ∨ bytes.take 8 ≠ SB_MAGIC_BYTES ∨
        bytes.getD 8 0 ≠ SB_VERSION := Or.inl (by omega)
    unfold read_superblock
    rw [if_neg (by simp : ¬(true = false)), if_neg (by simp : ¬(true = false)), if_pos hc]
  · intro hne line hmem
    rcases hrs : read_superblock deviceSome opened bytes with ⟨msgs, osb⟩
    have hm1 := read_superblock_msgs deviceSome opened bytes
    rw [hrs] at hm1
    simp only [cmd_dump, hrs] at hne hmem
    cases osb with
    | some sb => simp at hne
    | none =>
      rcases hm1 with hm1 | hm1 <;> subst hm1 <;> simp_all

theorem time_diff_eq (a b : Timeval) : time_diff a b = toQ b - toQ a := by
  simp only [time_diff, toQ]
  push_cast
  ring

theorem print_progress_first (now : Timeval) (ds b : Nat) (f : Bool) :
    print_progress initProgState now ds b f = ({ start := now, endT := now }, none) := by
  simp [print_progress, initProgState]

theorem print_progress_endT (st : ProgState) (now : Timeval) (ds b : Nat) (f : Bool) :
    (print_progress st now ds b f).1.endT = st.endT ∨
    (print_progress st now ds b f).1.endT = now := by
  simp only [print_progress]
  split_ifs <;> simp

theorem print_progress_emit_endT (st : ProgState) (now : Timeval) (ds b : Nat) (f : Bool)
    (st' : ProgState) (r : PReport)
    (h : print_progress st now ds b f = (st', some r)) : st'.endT = now := by
  simp only [print_progress] at h
  split_ifs at h <;> simp_all
  · exact congrArg ProgState.endT h.1.symm
  · exact congrArg ProgState.endT h.1.symm

theorem print_progress_emit_gap (st : ProgState) (now : Timeval) (ds b : Nat)
    (st' : ProgState) (r : PReport)
    (h : print_progress st now ds b false = (st', some r)) :
    1/2 ≤ time_diff st.endT now := by
  simp only [print_progress] at h
  split_ifs at h with h1 h2 h3 h4 <;>
    first
      | (simp at h; done)
      | (push_neg at h2; exact h2 trivial)

theorem print_progress_emit_mib (st : ProgState) (now : Timeval) (ds b : Nat) (f : Bool)
    (st' : ProgState) (r : PReport)
    (h : print_progress st now ds b f = (st', some r)) : mibOf r ≠ 0 := by
  simp only [print_progress] at h
  split_ifs at h with h1 h2 h3 h4 h5
  · simp at h
  · simp at h
  · simp at h
  · simp at h
  · simp only [Prod.mk.injEq, Option.some.injEq] at h
    obtain ⟨h6, h7⟩ := h
    subst h7
    simpa [mibOf] using h4
  · simp only [Prod.mk.injEq, Option.some.injEq] at h
    obtain ⟨h6, h7⟩ := h
    subst h7
    simpa [mibOf] using h4

theorem runProgress_gap_from :
    ∀ (cs : List PCall) (st : ProgState) (l2 : List (PCall × Option PReport))
      (c2 : PCall) (r2 : PReport) (l3 : List (PCall × Option PReport)),
      List.Pairwise (fun a b : PCall => toQ a.now ≤ toQ b.now) cs →
      (∀ c ∈ cs, toQ st.endT ≤ toQ c.now) →
      runProgress st cs = l2 ++ (c2, some r2) :: l3 →
      c2.final = false →
      toQ st.endT + 1/2 ≤ toQ c2.now := by
  intro cs
  induction cs with
  | nil =>
    intro st l2 c2 r2 l3 _ _ h _
    simp [runProgress] at h
  | cons c cs ih =>
    intro st l2 c2 r2 l3 hpw hge h hfin
    simp only [runProgress] at h
    cases l2 with
    | nil =>
      simp only [List.nil_append, List.cons.injEq, Prod.mk.injEq] at h
      obtain ⟨⟨hc1, hc2⟩, hrest⟩ := h
      subst hc1
      have hc2' : (print_progress st c.now c.device_size c.bytes c.final).2 = some r2 := by
        first
          | exact hc2
          | exact hc2.symm
      rw [hfin] at hc2'
      have hppeq : print_progress st c.now c.device_size c.bytes false =
          ((print_progress st c.now c.device_size c.bytes false).1, some r2) := by
        rw [← hc2']
      have hgap := print_progress_emit_gap st c.now c.device_size c.bytes _ r2 hppeq
      rw [time_diff_eq] at hgap
      linarith
    | cons p l2' =>
      simp only [List.cons_append, List.cons.injEq] at h
      obtain ⟨hp, hrest⟩ := h
      have hmono : toQ st.endT ≤
          toQ (print_progress st c.now c.device_size c.bytes c.final).1.endT := by
        rcases print_progress_endT st c.now c.device_size c.bytes c.final with he | he
        · rw [he]
        · rw [he]
          exact hge c (List.mem_cons_self c cs)
      have hnext := ih (print_progress st c.now c.device_size c.bytes c.final).1
        l2' c2 r2 l3 (List.Pairwise.of_cons hpw)
        (fun x hx => by
          rcases print_progress_endT st c.now c.device_size c.bytes c.final with he | he
          · rw [he]
            exact hge x (List.mem_cons_of_mem c hx)
          · rw [he]
            exact List.rel_of_pairwise_cons hpw hx)
        hrest hfin
      linarith

theorem runProgress_window :
    ∀ (cs : List PCall) (st : ProgState) (l1 : List (PCall × Option PReport))
      (c1 : PCall) (r1 : PReport) (l2 : List (PCall × Option PReport))
      (c2 : PCall) (r2 : PReport) (l3 : List (PCall × Option PReport)),
      List.Pairwise (fun a b : PCall => toQ a.now ≤ toQ b.now) cs →
      (∀ c ∈ cs, toQ st.endT ≤ toQ c.now) →
      runProgress st cs = l1 ++ (c1, some r1) :: l2 ++ (c2, some r2) :: l3 →
      c2.final = false →
      toQ c1.now + 1/2 ≤ toQ c2.now := by
  intro cs
  induction cs with
  | nil =>
    intro st l1 c1 r1 l2 c2 r2 l3 _ _ h _
    simp [runProgress] at h
  | cons c cs ih =>
    intro st l1 c1 r1 l2 c2 r2 l3 hpw hge h hfin
    simp only [runProgress] at h
    cases l1 with
    | nil =>
      rw [List.nil_append] at h
      injection h with h1 hrest
      obtain ⟨hc1, hc2⟩ := Prod.ext_iff.mp h1
      have hc1' : c = c1 := hc1
      rw [← hc1']
      have hc2' : (print_progress st c.now c.device_size c.bytes c.final).2 = some r1 := hc2
      have hppeq : print_progress st c.now c.device_size c.bytes c.final =
          ((print_progress st c.now c.device_size c.bytes c.final).1, some r1) := by
        rw [← hc2']
      have hend := print_progress_emit_endT st c.now c.device_size c.bytes c.final
        _ r1 hppeq
      have hgap := runProgress_gap_from cs
        (print_progress st c.now c.device_size c.bytes c.final).1 l2 c2 r2 l3
        (List.Pairwise.of_cons hpw)
        (fun x hx => by
          rw [hend]
          exact List.rel_of_pairwise_cons hpw hx)
        hrest hfin
      rw [hend] at hgap
      exact hgap
    | cons p l1' =>
      simp only [List.cons_append, List.cons.injEq] at h
      obtain ⟨hp, hrest⟩ := h
      exact ih (print_progress st c.now c.device_size c.bytes c.final).1
        l1' c1 r1 l2 c2 r2 l3 (List.Pairwise.of_cons hpw)
        (fun x hx => by
          rcases print_progress_endT st c.now c.device_size c.bytes c.final with he | he
          · rw [he]
            exact hge x (List.mem_cons_of_mem c hx)
          · rw [he]
            exact List.rel_of_pairwise_cons hpw hx)
        hrest hfin

/-- C8: the reporter's very first call records the start timestamp and
emits nothing; a non-final call less than 0.5 s after end_time emits
nothing and leaves the state unchanged; every emitted report carries a
nonzero throughput (the value the ETA computation divides by); and along
any run with nondecreasing clock samples, a non-final emitted report is
at least 0.5 s after every earlier emitted report. -/
theorem progress_throttle_safe :
    (∀ now ds b f, print_progress initProgState now ds b f =
       ({ start := now, endT := now }, none)) ∧
    (∀ st now ds b, st.start ≠ tvZero → time_diff st.endT now < 1/2 →
       print_progress st now ds b false = (st, none)) ∧
    (∀ st now ds b f st' rep, print_progress st now ds b f = (st', some rep) →
       mibOf rep ≠ 0) ∧
    (∀ calls l1 c1 r1 l2 c2 r2 l3,
       List.Pairwise (fun a b : PCall => toQ a.now ≤ toQ b.now) calls →
       (∀ c ∈ calls, 0 ≤ toQ c.now) →
       runProgress initProgState calls = l1 ++ (c1, some r1) :: l2 ++ (c2, some r2) :: l3 →
       c2.final = false →
       toQ c1.now + 1/2 ≤ toQ c2.now) := by
  refine ⟨print_progress_first, ?_, ?_, ?_⟩
  · intro st now ds b hst hlt
    simp only [print_progress]
    rw [if_neg hst, if_pos ⟨by simp, hlt⟩]
  · intro st now ds b f st' rep h
    exact print_progress_emit_mib st now ds b f st' rep h
  · intro calls l1 c1 r1 l2 c2 r2 l3 hpw h0 hrun hfin
    exact runProgress_window calls initProgState l1 c1 r1 l2 c2 r2 l3 hpw
      (fun c hc => by simpa [initProgState, tvZero, toQ] using h0 c hc) hrun hfin

theorem progress_throttle_safe_witness :
    print_progress initProgState ⟨1,0⟩ 5 7 false =
      ({ start := ⟨1,0⟩, endT := ⟨1,0⟩ }, none) ∧
    print_progress ⟨⟨1,0⟩,⟨5,0⟩⟩ ⟨5,100000⟩ 5 7 false = (⟨⟨1,0⟩,⟨5,0⟩⟩, none) ∧
    mibOf (PReport.progressLine 100 0 2 2) ≠ 0 ∧
    toQ ⟨2,0⟩ + 1/2 ≤ toQ ⟨3,0⟩ :=
  ⟨progress_throttle_safe.1 ⟨1,0⟩ 5 7 false,
   progress_throttle_safe.2.1 ⟨⟨1,0⟩,⟨5,0⟩⟩ ⟨5,100000⟩ 5 7 (by decide)
     (by norm_num [time_diff]),
   progress_throttle_safe.2.2.1 ⟨⟨1,0⟩,⟨1,0⟩⟩ ⟨2,0⟩ 2097152 2097152 false ⟨⟨1,0⟩,⟨2,0⟩⟩
     (PReport.progressLine 100 0 2 2) (by norm_num [print_progress, tvZero, time_diff]),
   progress_throttle_safe.2.2.2
     [⟨⟨1,0⟩,2097152,1048576,false⟩, ⟨⟨2,0⟩,2097152,2097152,false⟩,
      ⟨⟨3,0⟩,2097152,2097152,false⟩]
     [(⟨⟨1,0⟩,2097152,1048576,false⟩, none)] ⟨⟨2,0⟩,2097152,2097152,false⟩
     (PReport.progressLine 100 0 2 2) [] ⟨⟨3,0⟩,2097152,2097152,false⟩
     (PReport.progressLine 100 0 2 1) []
     (by norm_num [List.pairwise_cons, toQ])
     (by intro c hc; simp at hc; rcases hc with rfl | rfl | rfl <;> norm_num [toQ])
     (by norm_num [runProgress, print_progress, initProgState, tvZero, time_diff]) rfl⟩

theorem chunkSizesF_spec (block : Nat) (hb : 0 < block) :
    ∀ fuel off n, n - off < fuel →
      ∃ cs, chunkSizesF block fuel off n = some cs ∧
        cs.sum = n - off ∧
        (∀ c ∈ cs, 0 < c ∧ c ≤ block) ∧
        (∀ i, cs.getD i 0 = min block (n - off - (cs.take i).sum)) ∧
        (off < n → cs.getLast? = some (if (n - off) % block = 0 then block
                                       else (n - off) % block)) := by
  intro fuel
  induction fuel with
  | zero => intro off n h; omega
  | succ fuel ih =>
    intro off n h
    by_cases hlt : off < n
    · by_cases hgt : off + block > n
      · obtain ⟨cs, hcs, hsum, hbnd, hmin, hlast⟩ := ih (off + (n - off)) n (by omega)
        have hcs0 : cs = [] := by
          cases cs with
          | nil => rfl
          | cons a as =>
            exfalso
            have ha := (hbnd a (List.mem_cons_self a as)).1
            have hs : a + as.sum = n - (off + (n - off)) := by
              simpa [List.sum_cons] using hsum
            omega
        subst hcs0
        refine ⟨[n - off], ?_, by simp, ?_, ?_, ?_⟩
        · simp only [chunkSizesF, if_pos hlt, if_pos hgt, hcs, Option.map_some']
        · intro c hc
          simp at hc
          omega
        · intro i
          cases i with
          | zero =>
            simp only [List.getD, List.take_zero, List.sum_nil, Nat.sub_zero]
            rw [min_eq_right (by omega)]
            simp
          | succ i =>
            simp [List.getD]
        · intro _
          simp only [List.getLast?_singleton]
          rw [Nat.mod_eq_of_lt (by omega), if_neg (by omega)]
      · obtain ⟨cs, hcs, hsum, hbnd, hmin, hlast⟩ := ih (off + block) n (by omega)
        refine ⟨block :: cs, ?_, ?_, ?_, ?_, ?_⟩
        · simp only [chunkSizesF, if_pos hlt, if_neg hgt, hcs, Option.map_some']
        · simp only [List.sum_cons]
          omega
        · intro c hc
          rcases List.mem_cons.mp hc with rfl | hc
          · omega
          · exact hbnd c hc
        · intro i
          cases i with
          | zero =>
            simp only [List.getD, List.take_zero, List.sum_nil, Nat.sub_zero]
            rw [min_eq_left (by omega)]
            simp
          | succ i =>
            have hmi := hmin i
            simp only [List.getD] at hmi ⊢
            simp only [List.take_succ_cons, List.sum_cons]
            rw [show n - off - (block + (cs.take i).sum) =
                  n - (off + block) - (cs.take i).sum by omega]
            simpa using hmi
        · intro _
          by_cases hend : off + block < n
          · have hl := hlast hend
            cases cs with
            | nil => simp at hl
            | cons a as =>
              rw [List.getLast?_cons_cons, hl]
              have hmod : (n - off) % block = (n - (off + block)) % block := by
                rw [show n - (off + block) = n - off - block by omega]
                exact Nat.mod_eq_sub_mod (by omega)
              rw [hmod]
          · have hcs0 : cs = [] := by
              cases cs with
              | nil => rfl
              | cons a as =>
                exfalso
                have ha := (hbnd a (List.mem_cons_self a as)).1
                have hs : a + as.sum = n - (off + block) := by
                  simpa [List.sum_cons] using hsum
                omega
            subst hcs0
            simp only [List.getLast?_singleton]
            rw [show n - off = block by omega]
            simp [Nat.mod_self]
    · refine ⟨[], ?_, by simp; omega, by simp, ?_, by omega⟩
      · simp [chunkSizesF, hlt]
      · intro i
        simp only [List.getD, List.take_nil, List.sum_nil, Nat.sub_zero]
        rw [show n - off = 0 by omega]
        simp

theorem rwLoopF_check_reads (dev : Dev) (block : Nat)
    (hsk : ∀ o, dev.seekOk o = true) (hrd : ∀ o l, dev.readFull o l = true) :
    ∀ fuel off n cs, chunkSizesF block fuel off n = some cs →
      ∃ evs eo, rwLoopF dev block DevCommand.DEV_CHECK fuel off n = some (evs, false, eo) ∧
        readEvents evs = chunkReadList off cs := by
  intro fuel
  induction fuel with
  | zero => intro off n cs h; simp [chunkSizesF] at h
  | succ fuel ih =>
    intro off n cs h
    simp only [chunkSizesF] at h
    by_cases hlt : off < n
    · rw [if_pos hlt] at h
      rcases hrec : chunkSizesF block fuel
          (off + (if off + block > n then n - off else block)) n with _ | cs'
      · rw [hrec] at h
        simp at h
      · rw [hrec] at h
        simp only [Option.map_some', Option.some.injEq] at h
        obtain ⟨evs', eo', hevs, hreads⟩ := ih _ n cs' hrec
        refine ⟨Ev.read (off * SECTOR_SIZE)
            (SECTOR_SIZE * (if off + block > n then n - off else block)) ::
            Ev.progress (n * SECTOR_SIZE)
              ((off + (if off + block > n then n - off else block)) * SECTOR_SIZE) false ::
            evs', eo', ?_, ?_⟩
        · simp only [rwLoopF, if_pos hlt, hsk (off * SECTOR_SIZE),
            hrd (off * SECTOR_SIZE) (SECTOR_SIZE * (if off + block > n then n - off else block)),
            hevs]
          simp
        · rw [← h]
          simp only [readEvents, chunkReadList, hreads]
    · rw [if_neg hlt] at h
      simp only [Option.some.injEq] at h
      subst h
      refine ⟨[], off, ?_, ?_⟩
      · simp [rwLoopF, hlt]
      · simp [readEvents, chunkReadList]

/-- C1: with a positive chunk size and start offset 0, the chunk loop
partitions the device extent exactly: every chunk is min(chunk size,
remaining), chunks are positive and bounded by the chunk size, their sum
is the extent with nothing skipped or double counted, the last chunk is
the remainder (never zero), and on a healthy device the bulk reads of a
Check run are exactly one read per chunk at consecutive offsets. -/
theorem chunk_partition_exact (block n : Nat) (dev : Dev) (hb : 0 < block)
    (hm : dev.mallocOk = true) (ho : dev.openOk = true)
    (hsk : ∀ o, dev.seekOk o = true) (hrd : ∀ o l, dev.readFull o l = true) :
    ∃ cs tr,
      chunkSizes block 0 n = some cs ∧
      cs.sum = n ∧
      (∀ c ∈ cs, 0 < c ∧ c ≤ block) ∧
      (∀ i, cs.getD i 0 = min block (n - (cs.take i).sum)) ∧
      (n ≠ 0 → cs.getLast? = some (if n % block = 0 then block else n % block)) ∧
      rw_sectors dev block 0 n DevCommand.DEV_CHECK = some (tr, 0) ∧
      readEvents tr = chunkReadList 0 cs := by
  obtain ⟨cs, hcs, hsum, hbnd, hmin, hlast⟩ :=
    chunkSizesF_spec block hb (n - 0 + 1) 0 n (by omega)
  obtain ⟨evs, eo, hevs, hreads⟩ :=
    rwLoopF_check_reads dev block hsk hrd (n - 0 + 1) 0 n cs hcs
  refine ⟨cs, Ev.openDev (openMode DevCommand.DEV_CHECK) :: evs ++
      Ev.fsync :: (if dev.fsyncOk then [] else [Ev.print (Msg.fsyncErr dev.fsyncErrno)]) ++
      [Ev.close, Ev.progress (n * SECTOR_SIZE) (eo * SECTOR_SIZE) true],
    by simpa [chunkSizes] using hcs,
    by simpa using hsum,
    hbnd,
    by simpa using hmin,
    (fun hn => by simpa using hlast (by omega)),
    ?_, ?_⟩
  · simp only [rw_sectors]
    rw [if_neg (by simp [hm]), if_neg (by simp [ho]), hevs]
  · cases hf : dev.fsyncOk <;>
      simp [hf, readEvents, readEvents_append, hreads]

theorem chunk_partition_exact_witness :
    ∃ cs tr,
      chunkSizes 2 0 5 = some cs ∧
      cs.sum = 5 ∧
      (∀ c ∈ cs, 0 < c ∧ c ≤ 2) ∧
      (∀ i, cs.getD i 0 = min 2 (5 - (cs.take i).sum)) ∧
      (5 ≠ 0 → cs.getLast? = some (if 5 % 2 = 0 then 2 else 5 % 2)) ∧
      rw_sectors devH 2 0 5 DevCommand.DEV_CHECK = some (tr, 0) ∧
      readEvents tr = chunkReadList 0 cs :=
  chunk_partition_exact 2 5 devH (by decide) rfl rfl (fun _ => rfl) (fun _ _ => rfl)

theorem dump_short_read_fails_witness :
    read_superblock true true [105, 110, 116] = ([DumpLine.noHeader], none) ∧
    ((cmd_dump true true ([105, 110, 116] : List Nat)).2 ≠ 0 →
      ∀ line ∈ (cmd_dump true true ([105, 110, 116] : List Nat)).1,
        line = DumpLine.noHeader) :=
  dump_short_read_fails true true [105, 110, 116] (by decide)
